import Mathlib

/-!
Verification of the SwiftNet M:N virtual-thread scheduler core
(`src/vthread_scheduler.cpp`, `include/vthread_scheduler.hpp`,
`include/detail/mpsc_queue.hpp`, `src/io_awaitable.cpp`).

Shallow embedding conventions:
* `std::coroutine_handle<>` is `Option Nat`: `none` is the null handle, and
  `some h` a non-null handle identified by `h`.  Whether a coroutine has run
  to completion (`h.done()`) is tracked in the state field `hdone`; destroying
  a frame (`h.destroy()`) marks it done and logs it in `destroyed`.
* `std::unordered_map` keyed by handles becomes an association list with
  unique keys; `emplace` inserts only when the key is absent, exactly as the
  C++ `emplace` does.
* `std::chrono::steady_clock` timestamps are naturals counted in seconds
  (the only use of timestamps in the modelled code is
  `duration_cast<seconds>(now - start).count() > 30`), read from the state
  field `clock`.
* `uint32_t` core loads wrap modulo `2 ^ 32`; the statistics counters are
  `uint64_t` in the source and are modelled as unbounded naturals.
* Each scheduler method becomes a pure function `SchedState → … → SchedState`.
-/

set_option maxHeartbeats 1000000

namespace SwiftNet

/-- `enum class SuspendReason` from `vthread_scheduler.hpp`. -/
inductive SuspendReason where
  | NONE
  | IO_WAIT
  | YIELD
  | COMPLETED
  | PREEMPTED
deriving DecidableEq, Repr

/-- `struct IOOperation` from `vthread_scheduler.hpp`: the I/O wait registry
record `{fd, events, handle, start_time}`; `start_time` is captured from the
clock when the record is constructed. -/
structure IOOperation where
  fd : Int
  events : Nat
  handle : Nat
  start_time : Nat
deriving DecidableEq, Repr

/-- `struct VThreadContext` from `vthread_scheduler.hpp`. -/
structure VThreadContext where
  handle : Nat
  suspend_reason : SuspendReason
  last_resume : Nat
  cpu_time_us : Nat
  core_affinity : Nat
  is_mounted : Bool
deriving DecidableEq, Repr

/-- `vthread_scheduler::Stats` from `vthread_scheduler.hpp`. -/
structure Stats where
  total_scheduled : Nat
  total_io_suspended : Nat
  total_resumed : Nat
  work_stolen : Nat
  context_switches : Nat
  per_core_executed : List Nat
deriving DecidableEq, Repr

/-- A `std::pmr::memory_resource*`: a per-core arena from `arenas_`, the
process-wide `std::pmr::get_default_resource()`, or a null pointer. -/
inductive Resource where
  | arena (id : Nat)
  | defaultRes
  | nullRes
deriving DecidableEq, Repr

/-- The scheduler singleton's data members (`vthread_scheduler` private
section).  Run queues hold coroutine handles (a `vthread` owns exactly its
handle); the event loop is `none` when `event_loop_` is reset and otherwise
carries the poller's list of `(fd, mask)` registrations. -/
structure SchedState where
  running : Bool
  cleanup_running : Bool
  ncores : Nat
  workers : Nat
  queues : List (List Nat)
  arenas : List Resource
  io_operations : List (Nat × IOOperation)
  vthread_contexts : List (Nat × VThreadContext)
  worker_conditions : Nat
  worker_mutexes : Nat
  worker_sleeping : List Bool
  core_loads : List Nat
  stats : Stats
  event_loop : Option (List (Int × Nat))
  io_context_present : Bool
  last_balance_time : Nat
  clock : Nat
  hdone : Nat → Bool
  destroyed : List Nat

/-! ### Association-list operations mirroring `std::unordered_map` -/

/-- `map.find(k)` on an association list with unique keys. -/
def lookupKey {α : Type} (k : Nat) : List (Nat × α) → Option α
  | [] => none
  | (k2, v) :: rest => if k2 = k then some v else lookupKey k rest

/-- `map.erase(it)` after a successful `find(k)`: removes the entry for `k`. -/
def eraseKey {α : Type} (k : Nat) : List (Nat × α) → List (Nat × α)
  | [] => []
  | (k2, v) :: rest => if k2 = k then rest else (k2, v) :: eraseKey k rest

/-- `map.emplace(k, v)`: inserts only when `k` is absent (C++ `emplace` does
not overwrite an existing entry). -/
def emplaceKey {α : Type} (k : Nat) (v : α) (m : List (Nat × α)) : List (Nat × α) :=
  match lookupKey k m with
  | some _ => m
  | none => m ++ [(k, v)]

/-- The in-place field update
`it->second.suspend_reason = r` after `vthread_contexts_.find(h)`:
a no-op when `h` has no context. -/
def setSuspendReasonInMap (k : Nat) (r : SuspendReason) :
    List (Nat × VThreadContext) → List (Nat × VThreadContext)
  | [] => []
  | (k2, c) :: rest =>
    if k2 = k then (k2, { c with suspend_reason := r }) :: rest
    else (k2, c) :: setSuspendReasonInMap k r rest

/-! ### The MPSC run queue (`detail/mpsc_queue.hpp`)

The queue is a singly linked chain with a sentinel: `head_` points at the
sentinel, values live in the nodes after it, and `tail_` at the last node.
Its abstract state is the list of values in chain order.  `push` links a new
node after the current tail (append); `pop` reads `head_->next`, returns its
value and advances the sentinel (take the front). -/

/-- `mpsc_queue::push` on the abstract queue state. -/
def mpsc_push {α : Type} (q : List α) (v : α) : List α := q ++ [v]

/-- `mpsc_queue::pop` on the abstract queue state: `none` models a `false`
return with `out` untouched (empty chain); otherwise the front value and the
remaining queue. -/
def mpsc_pop {α : Type} : List α → Option (α × List α)
  | [] => none
  | x :: rest => some (x, rest)

/-- A single-producer / single-consumer interaction history with one queue. -/
inductive QueueOp (α : Type) where
  | push (v : α)
  | pop

/-- Runs a history of operations against a queue, returning the final queue
and the values the pops returned, in the order they were returned. -/
def runQueueOps {α : Type} : List (QueueOp α) → List α → List α × List α
  | [], q => (q, [])
  | QueueOp.push v :: ops, q => runQueueOps ops (mpsc_push q v)
  | QueueOp.pop :: ops, q =>
    match mpsc_pop q with
    | none => runQueueOps ops q
    | some (x, q2) =>
      let r := runQueueOps ops q2
      (r.1, x :: r.2)

/-- The values a history pushes, in push order. -/
def pushedOf {α : Type} : List (QueueOp α) → List α
  | [] => []
  | QueueOp.push v :: ops => v :: pushedOf ops
  | QueueOp.pop :: ops => pushedOf ops

/-! ### The poller (`event_loop`) as a set of registrations -/

/-- `event_loop::add(fd, mask)`: registers interest. -/
def eventLoopAdd (regs : List (Int × Nat)) (fd : Int) (mask : Nat) : List (Int × Nat) :=
  regs ++ [(fd, mask)]

/-- `event_loop::del(fd)`: drops every registration for `fd`. -/
def eventLoopDel (regs : List (Int × Nat)) (fd : Int) : List (Int × Nat) :=
  regs.filter (fun p => p.1 != fd)

/-! ### Scheduler operations (`vthread_scheduler.cpp`) -/

/-- `2 ^ 32`, the modulus of the `std::atomic<uint32_t>` core loads. -/
def UINT32_MOD : Nat := 2 ^ 32

/-- `std::thread::hardware_concurrency()`: an arbitrary positive platform
constant. -/
def hardware_concurrency : Nat := 8

/-- `std::vector::resize(n, d)`: truncate past `n`, pad with `d` up to `n`. -/
def listResize {α : Type} (l : List α) (n : Nat) (d : α) : List α :=
  l.take n ++ List.replicate (n - l.length) d

/-- `vthread_scheduler::wake_worker` (lines 283-290): clears the sleeping
flag (and notifies the condition variable) when the worker sleeps. -/
def wake_worker (s : SchedState) (core : Nat) : SchedState :=
  if s.worker_sleeping.getD core false then
    { s with worker_sleeping := s.worker_sleeping.set core false }
  else s

/-- `vthread_scheduler::select_best_core` loop (lines 547-561): `best_core`
starts at 0 with `min_load = core_loads_[0]`, then indices `1, …` replace it
on a strictly smaller load. -/
def scanBestCore : Nat → Nat → Nat → List Nat → Nat
  | best, _minLoad, _i, [] => best
  | best, minLoad, i, l :: ls =>
    if l < minLoad then scanBestCore i l (i + 1) ls
    else scanBestCore best minLoad (i + 1) ls

/-- `vthread_scheduler::select_best_core` (lines 547-561). -/
def select_best_core (s : SchedState) : Nat :=
  scanBestCore 0 (s.core_loads.getD 0 0) 1 (s.core_loads.drop 1)

/-- The `vthread` destructor running on a by-value argument that still owns
its non-null coroutine: `if (coro_) coro_.destroy();` (vthread.hpp lines
168-172).  The frame is destroyed unconditionally, with no `done()` check. -/
def vthread_dtor (s : SchedState) (t : Nat) : SchedState :=
  { s with
    hdone := fun x => if x = t then true else s.hdone x
    destroyed := s.destroyed ++ [t] }

/-- `vthread_scheduler::schedule` (lines 303-319).  A `vthread` is its
coroutine handle, passed BY VALUE: on the `if (!running_) return;` path the
argument was moved in but never moved out, so its destructor destroys the
coroutine frame; on the running path `push(std::move(t))` transfers
ownership into the queue and the destructor is a no-op. -/
def schedule (s : SchedState) (t : Nat) : SchedState :=
  if s.running = false then vthread_dtor s t
  else
    let core := select_best_core s
    let s1 := { s with queues := s.queues.set core (mpsc_push (s.queues.getD core []) t) }
    let s2 := { s1 with
      core_loads := s1.core_loads.set core ((s1.core_loads.getD core 0 + 1) % UINT32_MOD) }
    let s3 := wake_worker s2 core
    { s3 with stats := { s3.stats with total_scheduled := s3.stats.total_scheduled + 1 } }

/-- `vthread_scheduler::schedule_with_affinity` (lines 321-335).  The
by-value `vthread` argument is destroyed on the not-running early return,
exactly as in `schedule`.  While running `ncores_ ≥ 1`, so the `size_t`
subtraction `ncores_ - 1` never wraps and agrees with the natural
subtraction used here. -/
def schedule_with_affinity (s : SchedState) (t : Nat) (preferred_core : Nat) : SchedState :=
  if s.running = false then vthread_dtor s t
  else
    let core := min preferred_core (s.ncores - 1)
    let s1 := { s with queues := s.queues.set core (mpsc_push (s.queues.getD core []) t) }
    let s2 := { s1 with
      core_loads := s1.core_loads.set core ((s1.core_loads.getD core 0 + 1) % UINT32_MOD) }
    let s3 := wake_worker s2 core
    { s3 with stats := { s3.stats with total_scheduled := s3.stats.total_scheduled + 1 } }

/-- `vthread_scheduler::suspend_for_io` (lines 348-377). -/
def suspend_for_io (s : SchedState) (h : Option Nat) (fd : Int) (events : Nat) : SchedState :=
  match h with
  | none => s
  | some hh =>
    if s.hdone hh then s
    else
      let s1 := { s with
        io_operations := emplaceKey hh ⟨fd, events, hh, s.clock⟩ s.io_operations }
      let s2 := { s1 with
        vthread_contexts := setSuspendReasonInMap hh SuspendReason.IO_WAIT s1.vthread_contexts }
      let s3 :=
        match s2.event_loop with
        | some regs => { s2 with event_loop := some (eventLoopAdd regs fd events) }
        | none => s2
      { s3 with stats := { s3.stats with
          total_io_suspended := s3.stats.total_io_suspended + 1 } }

/-- `vthread_scheduler::resume_from_io` (lines 379-448).  The registry
take-miss branch only logs; the function then unconditionally resets the
context reason, re-schedules the still-not-done handle and increments
`total_resumed`. -/
def resume_from_io (s : SchedState) (h : Option Nat) (result : Int) : SchedState :=
  match h with
  | none => s
  | some hh =>
    if s.hdone hh then s
    else
      let s1 :=
        match lookupKey hh s.io_operations with
        | some op =>
          let sA :=
            match s.event_loop with
            | some regs => { s with event_loop := some (eventLoopDel regs op.fd) }
            | none => s
          { sA with io_operations := eraseKey hh sA.io_operations }
        | none => s
      let s2 := { s1 with
        vthread_contexts := setSuspendReasonInMap hh SuspendReason.NONE s1.vthread_contexts }
      let s3 := if s2.hdone hh then s2 else schedule s2 hh
      { s3 with stats := { s3.stats with total_resumed := s3.stats.total_resumed + 1 } }

/-- `vthread_scheduler::cancel_io_operation` (lines 450-462). -/
def cancel_io_operation (s : SchedState) (h : Option Nat) : SchedState :=
  match h with
  | none => s
  | some hh =>
    match lookupKey hh s.io_operations with
    | some op =>
      let sA :=
        match s.event_loop with
        | some regs => { s with event_loop := some (eventLoopDel regs op.fd) }
        | none => s
      { sA with io_operations := eraseKey hh sA.io_operations }
    | none => s

/-- `h.destroy()` applied to the listed handles: each becomes unusable
(modelled as done) and is logged in destruction order. -/
def destroyHandles (hd : Nat → Bool) (hs : List Nat) : Nat → Bool :=
  fun x => if hs.contains x then true else hd x

/-- Whether a registry entry has waited more than 30 seconds:
`duration_cast<seconds>(now - start_time).count() > 30` with second-granular
timestamps. -/
def ioExpired (now : Nat) (op : IOOperation) : Bool := decide (now - op.start_time > 30)

/-- `vthread_scheduler::cleanup_expired_io_operations` (lines 611-639): one
sweep collects the expired entries, erases them from the registry, and then
destroys each collected handle that is non-null and not done. -/
def cleanup_expired_io_operations (s : SchedState) : SchedState :=
  let expired := (s.io_operations.filter (fun p => ioExpired s.clock p.2)).map Prod.fst
  let remaining := s.io_operations.filter (fun p => ! ioExpired s.clock p.2)
  let toDestroy := expired.filter (fun k => ! s.hdone k)
  { s with
    io_operations := remaining
    hdone := destroyHandles s.hdone toDestroy
    destroyed := s.destroyed ++ toDestroy }

/-- `vthread_scheduler::start` (lines 21-72): a no-op while running;
otherwise sizes every per-core structure for `n` cores (`n = threads` or the
hardware concurrency when `threads == 0`), fills the per-core arenas, loads,
condition variables and mutexes, creates the event loop, grabs the
`io_context` singleton, raises the running flags and launches the workers
and the cleanup thread. -/
def start (s : SchedState) (threads : Nat) : SchedState :=
  if s.running then s
  else
    let n := if threads ≠ 0 then threads else hardware_concurrency
    { s with
      ncores := n
      queues := listResize s.queues n []
      arenas := s.arenas ++ (List.range n).map (fun i => Resource.arena (s.arenas.length + i))
      core_loads := List.replicate n 0
      worker_conditions := n
      worker_mutexes := n
      worker_sleeping := listResize s.worker_sleeping n false
      stats := { s.stats with per_core_executed := listResize s.stats.per_core_executed n 0 }
      event_loop := some []
      io_context_present := true
      running := true
      cleanup_running := true
      workers := n
      last_balance_time := s.clock }

/-- `vthread_scheduler::stop` (lines 74-130): a no-op while not running;
otherwise lowers the flags, wakes and joins every worker and the cleanup
thread, destroys each still-registered non-null not-done handle, clears the
registry, the contexts and every per-core structure, and releases the event
loop and the `io_context`. -/
def stop (s : SchedState) : SchedState :=
  if s.running = false then s
  else
    let toDestroy := (s.io_operations.filter (fun p => ! s.hdone p.1)).map Prod.fst
    { s with
      running := false
      cleanup_running := false
      hdone := destroyHandles s.hdone toDestroy
      destroyed := s.destroyed ++ toDestroy
      io_operations := []
      vthread_contexts := []
      workers := 0
      queues := []
      arenas := []
      core_loads := []
      worker_conditions := 0
      worker_mutexes := 0
      worker_sleeping := []
      event_loop := none
      io_context_present := false }

/-- `vthread_scheduler::local_resource` (lines 690-695). -/
def local_resource (s : SchedState) (core : Nat) : Resource :=
  if core ≥ s.arenas.length then Resource.defaultRes
  else s.arenas.getD core Resource.nullRes

/-- `vthread_scheduler::notify_completion` (lines 668-688) together with the
coroutine reaching its final suspension: the handle is done from now on and
its context is erased. -/
def task_completes (s : SchedState) (hh : Nat) : SchedState :=
  { s with
    hdone := fun x => if x = hh then true else s.hdone x
    vthread_contexts := eraseKey hh s.vthread_contexts }

/-! ### The runtime's own I/O paths (`io_awaitable.cpp`)

`io_awaitable::await_suspend(h)` calls `suspend_for_io(h, fd, events)` and
then detaches one background poller thread which calls
`resume_from_io(h, result)` exactly once (readiness, error or timeout, lines
50-134).  An `IOSystem` pairs the scheduler state with the multiset of
handles whose background thread has not yet fired. -/
structure IOSystem where
  sched : SchedState
  pendingResumes : List (Option Nat)

/-- One step of the I/O subsystem as the runtime itself drives it:
an awaiting task suspends (spawning its one background resume), a background
thread fires its one `resume_from_io`, a caller cancels, the sweeper runs,
a task completes, an external task is scheduled, or time passes. -/
inductive IOPathStep : IOSystem → IOSystem → Prop where
  | awaitSuspend (sys : IOSystem) (h : Option Nat) (fd : Int) (ev : Nat) :
      IOPathStep sys ⟨suspend_for_io sys.sched h fd ev, h :: sys.pendingResumes⟩
  | backgroundResume (sys : IOSystem) (h : Option Nat) (res : Int)
      (hmem : h ∈ sys.pendingResumes) :
      IOPathStep sys ⟨resume_from_io sys.sched h res, sys.pendingResumes.erase h⟩
  | cancelStep (sys : IOSystem) (h : Option Nat) :
      IOPathStep sys ⟨cancel_io_operation sys.sched h, sys.pendingResumes⟩
  | sweepStep (sys : IOSystem) :
      IOPathStep sys ⟨cleanup_expired_io_operations sys.sched, sys.pendingResumes⟩
  | completeStep (sys : IOSystem) (hh : Nat) :
      IOPathStep sys ⟨task_completes sys.sched hh, sys.pendingResumes⟩
  | scheduleStep (sys : IOSystem) (t : Nat) :
      IOPathStep sys ⟨schedule sys.sched t, sys.pendingResumes⟩
  | tickStep (sys : IOSystem) (d : Nat) :
      IOPathStep sys ⟨{ sys.sched with clock := sys.sched.clock + d }, sys.pendingResumes⟩

/-- Reachability along the I/O-path steps. -/
def ioReachable (sys0 sys : IOSystem) : Prop :=
  Relation.ReflTransGen IOPathStep sys0 sys

/-- A pending background resume is viable when its handle is non-null and
its coroutine has not completed: exactly then the matching
`resume_from_io` call will get past the early returns. -/
def viableTok (hd : Nat → Bool) : Option Nat → Bool
  | none => false
  | some x => ! hd x

/-- The number of viable pending background resumes. -/
def pendingViable (sys : IOSystem) : Nat :=
  (sys.pendingResumes.filter (viableTok sys.sched.hdone)).length

/-- The inductive strengthening of `total_resumed ≤ total_io_suspended`:
each viable pending resume is backed by its own suspension. -/
def statsInv (sys : IOSystem) : Prop :=
  sys.sched.stats.total_resumed + pendingViable sys ≤ sys.sched.stats.total_io_suspended

/-! ### The code-level atomic blocks of `suspend_for_io` (lines 348-377),
in source order, used to state claim C3. -/

/-- Lines 352-356: `io_operations_.emplace(h, IOOperation{fd, events, h})`. -/
def registryInsertStep (s : SchedState) (hh : Nat) (fd : Int) (events : Nat) : SchedState :=
  { s with io_operations := emplaceKey hh ⟨fd, events, hh, s.clock⟩ s.io_operations }

/-- Lines 358-365: `it->second.suspend_reason = SuspendReason::IO_WAIT`. -/
def markIOWaitStep (s : SchedState) (hh : Nat) : SchedState :=
  { s with vthread_contexts := setSuspendReasonInMap hh SuspendReason.IO_WAIT s.vthread_contexts }

/-- Lines 367-370: `if (event_loop_) event_loop_->add(fd, events)`. -/
def pollerAddStep (s : SchedState) (fd : Int) (events : Nat) : SchedState :=
  match s.event_loop with
  | some regs => { s with event_loop := some (eventLoopAdd regs fd events) }
  | none => s

/-- Lines 372-376: `stats_.total_io_suspended++`. -/
def bumpIOSuspendedStep (s : SchedState) : SchedState :=
  { s with stats := { s.stats with total_io_suspended := s.stats.total_io_suspended + 1 } }

/-! ### Concrete states used by the witnesses and the counterexample -/

/-- A small running scheduler: two cores, empty queues, one live virtual
thread with handle 1 whose context is mounted, nothing suspended on I/O. -/
def exampleState : SchedState where
  running := true
  cleanup_running := true
  ncores := 2
  workers := 2
  queues := [[], []]
  arenas := [Resource.arena 0, Resource.arena 1]
  io_operations := []
  vthread_contexts := [(1, ⟨1, SuspendReason.NONE, 0, 0, 0, true⟩)]
  worker_conditions := 2
  worker_mutexes := 2
  worker_sleeping := [false, false]
  core_loads := [0, 0]
  stats := ⟨0, 0, 0, 0, 0, [0, 0]⟩
  event_loop := some []
  io_context_present := true
  last_balance_time := 0
  clock := 0
  hdone := fun _ => false
  destroyed := []

/-- `exampleState` with the running flag lowered. -/
def stoppedExampleState : SchedState := { exampleState with running := false }

/-- Handle 1 suspends on fd 5 (READABLE) and the wait is then cancelled:
`cancel_io_operation` has removed the registry entry while the coroutine is
still alive. -/
def c1CancelledState : SchedState :=
  cancel_io_operation (suspend_for_io exampleState (some 1) 5 1) (some 1)

/-- A registry with one entry 50 seconds old (expired) and one entry 10
seconds old, both coroutines alive, at clock 100. -/
def c8State : SchedState :=
  { exampleState with
    clock := 100
    io_operations := [(1, ⟨5, 1, 1, 50⟩), (2, ⟨6, 1, 2, 90⟩)] }

/-! ## Helper lemmas -/

theorem wake_worker_queues (u : SchedState) (c : Nat) :
    (wake_worker u c).queues = u.queues := by
  unfold wake_worker; split <;> rfl

theorem wake_worker_core_loads (u : SchedState) (c : Nat) :
    (wake_worker u c).core_loads = u.core_loads := by
  unfold wake_worker; split <;> rfl

theorem wake_worker_stats (u : SchedState) (c : Nat) :
    (wake_worker u c).stats = u.stats := by
  unfold wake_worker; split <;> rfl

theorem wake_worker_io_operations (u : SchedState) (c : Nat) :
    (wake_worker u c).io_operations = u.io_operations := by
  unfold wake_worker; split <;> rfl

theorem wake_worker_event_loop (u : SchedState) (c : Nat) :
    (wake_worker u c).event_loop = u.event_loop := by
  unfold wake_worker; split <;> rfl

theorem wake_worker_hdone (u : SchedState) (c : Nat) :
    (wake_worker u c).hdone = u.hdone := by
  unfold wake_worker; split <;> rfl

theorem wake_worker_vthread_contexts (u : SchedState) (c : Nat) :
    (wake_worker u c).vthread_contexts = u.vthread_contexts := by
  unfold wake_worker; split <;> rfl

theorem wake_worker_destroyed (u : SchedState) (c : Nat) :
    (wake_worker u c).destroyed = u.destroyed := by
  unfold wake_worker; split <;> rfl

theorem wake_worker_clock (u : SchedState) (c : Nat) :
    (wake_worker u c).clock = u.clock := by
  unfold wake_worker; split <;> rfl

/-- `schedule` touches only the queues, the loads, the sleeping flags,
`total_scheduled` and (on the not-running path, through the `vthread`
destructor) the done/destroyed bookkeeping of the passed task. -/
theorem schedule_preserves (u : SchedState) (t : Nat) :
    (schedule u t).io_operations = u.io_operations ∧
    (schedule u t).event_loop = u.event_loop ∧
    (schedule u t).vthread_contexts = u.vthread_contexts ∧
    (schedule u t).stats.total_resumed = u.stats.total_resumed ∧
    (schedule u t).stats.total_io_suspended = u.stats.total_io_suspended ∧
    (schedule u t).clock = u.clock := by
  unfold schedule
  split
  · exact ⟨rfl, rfl, rfl, rfl, rfl, rfl⟩
  · simp [wake_worker_io_operations, wake_worker_event_loop,
      wake_worker_vthread_contexts, wake_worker_stats, wake_worker_clock]

/-- `schedule` never revives a done coroutine: the done map only grows (the
not-running path destroys the passed task, the running path keeps the map). -/
theorem schedule_hdone_mono (u : SchedState) (t : Nat) :
    ∀ x, u.hdone x = true → (schedule u t).hdone x = true := by
  intro x hx
  unfold schedule
  split
  · simp only [vthread_dtor]
    split <;> simp [hx]
  · simp [wake_worker_hdone, hx]

/-! ## Claims -/

/-- C5: for every interaction history with an `mpsc_queue` the values the
pops return, followed by the values still queued, are exactly the pushed
values in push order: pops return values first-in first-out, no value is
returned twice and none is skipped while the queue is non-empty. -/
theorem mpsc_queue_single_producer_fifo {α : Type} (ops : List (QueueOp α)) (q : List α) :
    (runQueueOps ops q).2 ++ (runQueueOps ops q).1 = q ++ pushedOf ops := by
  induction ops generalizing q with
  | nil => simp [runQueueOps, pushedOf]
  | cons op ops ih =>
    cases op with
    | push v =>
      simp only [runQueueOps, pushedOf]
      rw [ih]
      simp [mpsc_push]
    | pop =>
      cases q with
      | nil => simpa [runQueueOps, mpsc_pop, pushedOf] using ih []
      | cons x rest =>
        simp only [runQueueOps, mpsc_pop, pushedOf]
        simpa using ih rest

/-- C6: `start` and `stop` are idempotent: a second `start` in a row sees
the running flag and returns at once, and a second `stop` in a row sees the
lowered flag and returns at once. -/
theorem start_stop_idempotent (s : SchedState) (n : Nat) :
    start (start s n) n = start s n ∧ stop (stop s) = stop s := by
  constructor
  · cases hr : s.running with
    | true => simp [start, hr]
    | false =>
      have h1 : (start s n).running = true := by simp [start, hr]
      conv_lhs => rw [start]
      rw [if_pos h1]
  · cases hr : s.running with
    | false => simp [stop, hr]
    | true =>
      have h1 : (stop s).running = false := by simp [stop, hr]
      conv_lhs => rw [stop]
      rw [if_pos h1]

/-- C7: after `stop()` on a running scheduler every run queue is empty (the
queue vector is cleared) and the I/O wait registry holds no entry. -/
theorem stop_drains_run_queues_and_registry (s : SchedState) (hrun : s.running = true) :
    (∀ q ∈ (stop s).queues, q = ([] : List Nat)) ∧ (stop s).io_operations = [] := by
  simp [stop, hrun]

/-- witness for C7 at a concrete running scheduler. -/
theorem stop_drains_run_queues_and_registry_witness :
    (∀ q ∈ (stop exampleState).queues, q = ([] : List Nat)) ∧
    (stop exampleState).io_operations = [] :=
  stop_drains_run_queues_and_registry exampleState rfl

/-- C9 counterexample: on a stopped scheduler, scheduling a live task is not
a silent no-op: the by-value `vthread` argument's destructor destroys the
task's coroutine frame on the early return (vthread.hpp lines 168-172), so
the state changes — here handle 7 becomes done and destroyed.  Both entry
points exhibit it at this concrete input. -/
theorem schedule_when_stopped_destroys_task :
    (schedule stoppedExampleState 7).destroyed ≠ stoppedExampleState.destroyed ∧
    (schedule stoppedExampleState 7).hdone 7 ≠ stoppedExampleState.hdone 7 ∧
    (schedule_with_affinity stoppedExampleState 7 1).destroyed ≠
      stoppedExampleState.destroyed ∧
    (schedule_with_affinity stoppedExampleState 7 1).hdone 7 ≠
      stoppedExampleState.hdone 7 := by
  refine ⟨by decide, by decide, by decide, by decide⟩

/-- C9 (amended): when the scheduler is not running, `schedule` and
`schedule_with_affinity` return without enqueuing the task on any run queue,
without changing any core load and without touching the statistics (no
`total_scheduled` increment) or the I/O registry; the call is silent (no
error) but it is not a no-op: the by-value task argument still owns its
coroutine, so the early return destroys the task's frame. -/
theorem schedule_when_not_running_drops_task (s : SchedState) (t c : Nat)
    (hs : s.running = false) :
    (schedule s t).queues = s.queues ∧
    (schedule s t).core_loads = s.core_loads ∧
    (schedule s t).stats = s.stats ∧
    (schedule s t).io_operations = s.io_operations ∧
    (schedule s t).hdone t = true ∧
    (schedule s t).destroyed = s.destroyed ++ [t] ∧
    (schedule_with_affinity s t c).queues = s.queues ∧
    (schedule_with_affinity s t c).core_loads = s.core_loads ∧
    (schedule_with_affinity s t c).stats = s.stats ∧
    (schedule_with_affinity s t c).io_operations = s.io_operations ∧
    (schedule_with_affinity s t c).hdone t = true ∧
    (schedule_with_affinity s t c).destroyed = s.destroyed ++ [t] := by
  rw [schedule, schedule_with_affinity, if_pos hs, if_pos hs]
  simp [vthread_dtor]

/-- witness for C9's amended claim at a concrete stopped scheduler. -/
theorem schedule_when_not_running_drops_task_witness :
    (schedule stoppedExampleState 7).queues = stoppedExampleState.queues ∧
    (schedule stoppedExampleState 7).core_loads = stoppedExampleState.core_loads ∧
    (schedule stoppedExampleState 7).stats = stoppedExampleState.stats ∧
    (schedule stoppedExampleState 7).io_operations = stoppedExampleState.io_operations ∧
    (schedule stoppedExampleState 7).hdone 7 = true ∧
    (schedule stoppedExampleState 7).destroyed = stoppedExampleState.destroyed ++ [7] ∧
    (schedule_with_affinity stoppedExampleState 7 1).queues = stoppedExampleState.queues ∧
    (schedule_with_affinity stoppedExampleState 7 1).core_loads =
      stoppedExampleState.core_loads ∧
    (schedule_with_affinity stoppedExampleState 7 1).stats = stoppedExampleState.stats ∧
    (schedule_with_affinity stoppedExampleState 7 1).io_operations =
      stoppedExampleState.io_operations ∧
    (schedule_with_affinity stoppedExampleState 7 1).hdone 7 = true ∧
    (schedule_with_affinity stoppedExampleState 7 1).destroyed =
      stoppedExampleState.destroyed ++ [7] :=
  schedule_when_not_running_drops_task stoppedExampleState 7 1 rfl

/-- Indexing inside the bounds lands on a list element. -/
theorem getD_mem_of_lt {α : Type} (l : List α) (i : Nat) (d : α) (h : i < l.length) :
    l.getD i d ∈ l := by
  induction l generalizing i with
  | nil => simp at h
  | cons x xs ih =>
    cases i with
    | zero => simp
    | succ j =>
      simp only [List.getD_cons_succ, List.mem_cons]
      exact Or.inr (ih j (by simpa using h))

/-- C10: `local_resource(core)` never returns a null pointer: inside the
arena vector's bounds it returns that core's arena (which `start` created
with `make_unique`, hence non-null), and outside the bounds it returns the
process-wide default memory resource. -/
theorem local_resource_never_null (s : SchedState) (core : Nat)
    (ha : ∀ r ∈ s.arenas, r ≠ Resource.nullRes) :
    local_resource s core ≠ Resource.nullRes ∧
    (core < s.arenas.length → local_resource s core = s.arenas.getD core Resource.nullRes) ∧
    (s.arenas.length ≤ core → local_resource s core = Resource.defaultRes) := by
  by_cases h : core ≥ s.arenas.length
  · refine ⟨?_, ?_, ?_⟩
    · simp [local_resource, h]
    · intro hlt; omega
    · intro _; simp [local_resource, h]
  · have hlt : core < s.arenas.length := by omega
    refine ⟨?_, ?_, ?_⟩
    · have hmem := getD_mem_of_lt s.arenas core Resource.nullRes hlt
      simpa [local_resource, h] using ha _ hmem
    · intro _; simp [local_resource, h]
    · intro hge; omega

/-- witness for C10 at a concrete scheduler with two live arenas. -/
theorem local_resource_never_null_witness :
    local_resource exampleState 0 ≠ Resource.nullRes ∧
    (0 < exampleState.arenas.length →
      local_resource exampleState 0 = exampleState.arenas.getD 0 Resource.nullRes) ∧
    (exampleState.arenas.length ≤ 0 → local_resource exampleState 0 = Resource.defaultRes) :=
  local_resource_never_null exampleState 0 (by decide)

theorem getD_of_drop_cons (L : List Nat) (i l : Nat) (ls : List Nat)
    (h : L.drop i = l :: ls) : L.getD i 0 = l := by
  induction L generalizing i with
  | nil => simp at h
  | cons x xs ih =>
    cases i with
    | zero => simp at h; simp [h.1]
    | succ j =>
      simp only [List.drop_succ_cons] at h
      simpa using ih j h

theorem drop_succ_of_drop_cons (L : List Nat) (i l : Nat) (ls : List Nat)
    (h : L.drop i = l :: ls) : L.drop (i + 1) = ls := by
  induction L generalizing i with
  | nil => simp at h
  | cons x xs ih =>
    cases i with
    | zero => simp at h; simp [h.2]
    | succ j =>
      simp only [List.drop_succ_cons] at h ⊢
      exact ih j h

theorem lt_length_of_drop_cons (L : List Nat) (i l : Nat) (ls : List Nat)
    (h : L.drop i = l :: ls) : i < L.length := by
  by_contra hge
  rw [List.drop_eq_nil_of_le (by omega)] at h
  exact List.noConfusion h

theorem length_le_of_drop_nil (L : List Nat) (i : Nat) (h : L.drop i = []) :
    L.length ≤ i := by
  by_contra hlt
  have := List.length_drop i L
  rw [h] at this
  simp at this
  omega

/-- Loop invariant of the `select_best_core` scan: starting from a best
index below `i` whose load is minimal and leftmost-minimal among the first
`i` loads, the scan of the remaining loads returns the leftmost index of a
minimal load of the whole vector. -/
theorem scanBestCore_spec (L : List Nat) :
    ∀ (ls : List Nat) (i best : Nat),
      ls = L.drop i →
      best < i →
      best < L.length →
      (∀ j, j < i → L.getD best 0 ≤ L.getD j 0) →
      (∀ j, j < i → L.getD j 0 = L.getD best 0 → best ≤ j) →
      scanBestCore best (L.getD best 0) i ls < L.length ∧
      (∀ j, j < L.length →
        L.getD (scanBestCore best (L.getD best 0) i ls) 0 ≤ L.getD j 0) ∧
      (∀ j, j < L.length → L.getD j 0 = L.getD (scanBestCore best (L.getD best 0) i ls) 0 →
        scanBestCore best (L.getD best 0) i ls ≤ j) := by
  intro ls
  induction ls with
  | nil =>
    intro i best hdrop _hbi hbL h4 h5
    have hLi : L.length ≤ i := length_le_of_drop_nil L i hdrop.symm
    exact ⟨hbL, fun j hj => h4 j (by omega), fun j hj => h5 j (by omega)⟩
  | cons l ls2 ih =>
    intro i best hdrop hbi hbL h4 h5
    have hl : L.getD i 0 = l := getD_of_drop_cons L i l ls2 hdrop.symm
    have hdrop2 : ls2 = L.drop (i + 1) := (drop_succ_of_drop_cons L i l ls2 hdrop.symm).symm
    have hiL : i < L.length := lt_length_of_drop_cons L i l ls2 hdrop.symm
    rw [scanBestCore]
    by_cases hlt : l < L.getD best 0
    · rw [if_pos hlt]
      have hrec := ih (i + 1) i hdrop2 (by omega) hiL
        (fun j hj => by
          rcases Nat.lt_succ_iff_lt_or_eq.mp hj with hj2 | hj2
          · have := h4 j hj2
            omega
          · subst hj2; omega)
        (fun j hj heq => by
          rcases Nat.lt_succ_iff_lt_or_eq.mp hj with hj2 | hj2
          · have := h4 j hj2
            rw [heq, hl] at this
            omega
          · omega)
      rw [hl] at hrec
      exact hrec
    · rw [if_neg hlt]
      exact ih (i + 1) best hdrop2 (by omega) hbL
        (fun j hj => by
          rcases Nat.lt_succ_iff_lt_or_eq.mp hj with hj2 | hj2
          · exact h4 j hj2
          · subst hj2; omega)
        (fun j hj heq => by
          rcases Nat.lt_succ_iff_lt_or_eq.mp hj with hj2 | hj2
          · exact h5 j hj2 heq
          · omega)

theorem getD_set_self (L : List Nat) (i v : Nat) (h : i < L.length) :
    (L.set i v).getD i 0 = v := by
  induction L generalizing i with
  | nil => simp at h
  | cons x xs ih =>
    cases i with
    | zero => simp
    | succ j => simpa using ih j (by simpa using h)

/-- C4: `select_best_core` returns the index of a minimal load and on ties
the lowest such index; `schedule` pushes the task onto exactly that core's
run queue and raises exactly that core's load by one (the `uint32_t` load
not being at its wrap-around point). -/
theorem select_best_core_argmin_schedule (s : SchedState) (t : Nat)
    (hne : s.core_loads ≠ [])
    (hrun : s.running = true)
    (hload : s.core_loads.getD (select_best_core s) 0 + 1 < UINT32_MOD) :
    select_best_core s < s.core_loads.length ∧
    (∀ j, j < s.core_loads.length →
      s.core_loads.getD (select_best_core s) 0 ≤ s.core_loads.getD j 0) ∧
    (∀ j, j < s.core_loads.length →
      s.core_loads.getD j 0 = s.core_loads.getD (select_best_core s) 0 →
      select_best_core s ≤ j) ∧
    (schedule s t).queues =
      s.queues.set (select_best_core s) (s.queues.getD (select_best_core s) [] ++ [t]) ∧
    (schedule s t).core_loads.getD (select_best_core s) 0 =
      s.core_loads.getD (select_best_core s) 0 + 1 := by
  have hlen : 0 < s.core_loads.length := List.length_pos.mpr hne
  have hspec := scanBestCore_spec s.core_loads (s.core_loads.drop 1) 1 0 rfl
    (by omega) hlen
    (fun j hj => by interval_cases j; omega)
    (fun j hj _ => by omega)
  have hbest : select_best_core s < s.core_loads.length ∧
      (∀ j, j < s.core_loads.length →
        s.core_loads.getD (select_best_core s) 0 ≤ s.core_loads.getD j 0) ∧
      (∀ j, j < s.core_loads.length →
        s.core_loads.getD j 0 = s.core_loads.getD (select_best_core s) 0 →
        select_best_core s ≤ j) := hspec
  have hq : (schedule s t).queues =
      s.queues.set (select_best_core s) (s.queues.getD (select_best_core s) [] ++ [t]) := by
    rw [schedule, if_neg (by simp [hrun])]
    simp [wake_worker_queues, mpsc_push]
  have hcl : (schedule s t).core_loads =
      s.core_loads.set (select_best_core s)
        ((s.core_loads.getD (select_best_core s) 0 + 1) % UINT32_MOD) := by
    rw [schedule, if_neg (by simp [hrun])]
    simp [wake_worker_core_loads]
  refine ⟨hbest.1, hbest.2.1, hbest.2.2, hq, ?_⟩
  rw [hcl, getD_set_self _ _ _ hbest.1, Nat.mod_eq_of_lt hload]

/-- witness for C4 at a concrete two-core scheduler with zero loads. -/
theorem select_best_core_argmin_schedule_witness :
    select_best_core exampleState < exampleState.core_loads.length ∧
    (∀ j, j < exampleState.core_loads.length →
      exampleState.core_loads.getD (select_best_core exampleState) 0 ≤
        exampleState.core_loads.getD j 0) ∧
    (∀ j, j < exampleState.core_loads.length →
      exampleState.core_loads.getD j 0 =
        exampleState.core_loads.getD (select_best_core exampleState) 0 →
      select_best_core exampleState ≤ j) ∧
    (schedule exampleState 7).queues =
      exampleState.queues.set (select_best_core exampleState)
        (exampleState.queues.getD (select_best_core exampleState) [] ++ [7]) ∧
    (schedule exampleState 7).core_loads.getD (select_best_core exampleState) 0 =
      exampleState.core_loads.getD (select_best_core exampleState) 0 + 1 :=
  select_best_core_argmin_schedule exampleState 7 (by decide) rfl (by decide)

theorem lookupKey_setSuspendReasonInMap (k : Nat) (r : SuspendReason)
    (m : List (Nat × VThreadContext)) :
    lookupKey k (setSuspendReasonInMap k r m) =
      (lookupKey k m).map (fun c => { c with suspend_reason := r }) := by
  induction m with
  | nil => simp [setSuspendReasonInMap, lookupKey]
  | cons p rest ih =>
    obtain ⟨k2, c⟩ := p
    by_cases h : k2 = k
    · simp [setSuspendReasonInMap, lookupKey, h]
    · simp [setSuspendReasonInMap, lookupKey, h, ih]

/-- C3: for a non-null, not-done handle that is executing (so its context
exists, the scheduler's event loop is up and the handle is not yet
registered), `suspend_for_io(h, fd, events)` is exactly the composition, in
source order, of: insert `{fd, events, handle, start timestamp}` into the
I/O wait registry keyed by the handle; set the context's suspend reason to
`IO_WAIT`; add `(fd, events)` to the poller; increment `total_io_suspended`
by one. -/
theorem suspend_for_io_ordered_steps (s : SchedState) (hh : Nat) (fd : Int) (events : Nat)
    (ctx : VThreadContext) (regs : List (Int × Nat))
    (hnotdone : s.hdone hh = false)
    (hnotin : lookupKey hh s.io_operations = none)
    (hctx : lookupKey hh s.vthread_contexts = some ctx)
    (hev : s.event_loop = some regs) :
    suspend_for_io s (some hh) fd events =
      bumpIOSuspendedStep
        (pollerAddStep (markIOWaitStep (registryInsertStep s hh fd events) hh) fd events) ∧
    (suspend_for_io s (some hh) fd events).io_operations =
      s.io_operations ++ [(hh, ⟨fd, events, hh, s.clock⟩)] ∧
    lookupKey hh (suspend_for_io s (some hh) fd events).vthread_contexts =
      some { ctx with suspend_reason := SuspendReason.IO_WAIT } ∧
    (suspend_for_io s (some hh) fd events).event_loop = some (regs ++ [(fd, events)]) ∧
    (suspend_for_io s (some hh) fd events).stats.total_io_suspended =
      s.stats.total_io_suspended + 1 ∧
    (suspend_for_io s (some hh) fd events).queues = s.queues ∧
    (suspend_for_io s (some hh) fd events).stats.total_resumed = s.stats.total_resumed := by
  refine ⟨?_, ?_, ?_, ?_, ?_, ?_, ?_⟩
  · simp only [suspend_for_io, hnotdone, Bool.false_eq_true, if_false,
      registryInsertStep, markIOWaitStep, pollerAddStep, bumpIOSuspendedStep, hev]
  · simp [suspend_for_io, hnotdone, hev, emplaceKey, hnotin]
  · simp [suspend_for_io, hnotdone, hev, lookupKey_setSuspendReasonInMap, hctx]
  · simp [suspend_for_io, hnotdone, hev, eventLoopAdd]
  · simp [suspend_for_io, hnotdone, hev]
  · simp [suspend_for_io, hnotdone, hev]
  · simp [suspend_for_io, hnotdone, hev]

/-- witness for C3 at a concrete scheduler: handle 1 with a mounted context
suspends on fd 5 for READABLE. -/
theorem suspend_for_io_ordered_steps_witness :
    suspend_for_io exampleState (some 1) 5 1 =
      bumpIOSuspendedStep
        (pollerAddStep (markIOWaitStep (registryInsertStep exampleState 1 5 1) 1) 5 1) ∧
    (suspend_for_io exampleState (some 1) 5 1).io_operations =
      exampleState.io_operations ++ [(1, ⟨5, 1, 1, exampleState.clock⟩)] ∧
    lookupKey 1 (suspend_for_io exampleState (some 1) 5 1).vthread_contexts =
      some { (⟨1, SuspendReason.NONE, 0, 0, 0, true⟩ : VThreadContext) with
        suspend_reason := SuspendReason.IO_WAIT } ∧
    (suspend_for_io exampleState (some 1) 5 1).event_loop = some ([] ++ [(5, 1)]) ∧
    (suspend_for_io exampleState (some 1) 5 1).stats.total_io_suspended =
      exampleState.stats.total_io_suspended + 1 ∧
    (suspend_for_io exampleState (some 1) 5 1).queues = exampleState.queues ∧
    (suspend_for_io exampleState (some 1) 5 1).stats.total_resumed =
      exampleState.stats.total_resumed :=
  suspend_for_io_ordered_steps exampleState 1 5 1
    ⟨1, SuspendReason.NONE, 0, 0, 0, true⟩ [] rfl rfl rfl rfl

/-- C1 counterexample: at a concrete state where `cancel_io_operation` has
already removed handle 1's registry entry and the coroutine is alive, the
subsequent `resume_from_io` is NOT discarded: it re-enqueues the handle on a
run queue and increments `total_resumed` (the registry itself stays
unchanged, so the claim's conjunction fails). -/
theorem resume_after_cancel_not_discarded :
    lookupKey 1 c1CancelledState.io_operations = none ∧
    c1CancelledState.hdone 1 = false ∧
    (resume_from_io c1CancelledState (some 1) 1).stats.total_resumed ≠
      c1CancelledState.stats.total_resumed ∧
    (resume_from_io c1CancelledState (some 1) 1).queues ≠ c1CancelledState.queues := by
  refine ⟨by decide, by decide, by decide, by decide⟩

/-- C1 (amended): after `cancel_io_operation(H)` has removed the registry
entry, a subsequent `resume_from_io(H, result)` for a not-yet-completed H
leaves the I/O registry and the poller unchanged (the take misses), but it
is not discarded: `total_resumed` is incremented by one and, when the
scheduler is running, H is re-enqueued on the best core's run queue (only
when the scheduler is stopped does no enqueue happen). -/
theorem resume_from_io_after_cancel (s : SchedState) (hh : Nat) (res : Int)
    (hnotin : lookupKey hh s.io_operations = none)
    (hnotdone : s.hdone hh = false) :
    (resume_from_io s (some hh) res).io_operations = s.io_operations ∧
    (resume_from_io s (some hh) res).event_loop = s.event_loop ∧
    (resume_from_io s (some hh) res).stats.total_resumed = s.stats.total_resumed + 1 ∧
    (s.running = true →
      (resume_from_io s (some hh) res).queues =
        s.queues.set (select_best_core s)
          (s.queues.getD (select_best_core s) [] ++ [hh])) ∧
    (s.running = false → (resume_from_io s (some hh) res).queues = s.queues) := by
  have hsp := schedule_preserves
    { s with vthread_contexts := setSuspendReasonInMap hh SuspendReason.NONE s.vthread_contexts }
    hh
  refine ⟨?_, ?_, ?_, ?_, ?_⟩
  · simp only [resume_from_io, hnotdone, Bool.false_eq_true, if_false, hnotin]
    exact hsp.1
  · simp only [resume_from_io, hnotdone, Bool.false_eq_true, if_false, hnotin]
    exact hsp.2.1
  · simp only [resume_from_io, hnotdone, Bool.false_eq_true, if_false, hnotin]
    rw [hsp.2.2.2.1]
  · intro hrun
    simp only [resume_from_io, hnotdone, Bool.false_eq_true, if_false, hnotin]
    rw [schedule, if_neg (by simp [hrun])]
    simp [wake_worker_queues, mpsc_push, select_best_core]
  · intro hstop
    simp only [resume_from_io, hnotdone, Bool.false_eq_true, if_false, hnotin]
    rw [schedule, if_pos hstop]
    simp [vthread_dtor]

/-- witness for C1's amended claim at the concrete cancelled state. -/
theorem resume_from_io_after_cancel_witness :
    (resume_from_io c1CancelledState (some 1) 1).io_operations =
      c1CancelledState.io_operations ∧
    (resume_from_io c1CancelledState (some 1) 1).event_loop =
      c1CancelledState.event_loop ∧
    (resume_from_io c1CancelledState (some 1) 1).stats.total_resumed =
      c1CancelledState.stats.total_resumed + 1 ∧
    (c1CancelledState.running = true →
      (resume_from_io c1CancelledState (some 1) 1).queues =
        c1CancelledState.queues.set (select_best_core c1CancelledState)
          (c1CancelledState.queues.getD (select_best_core c1CancelledState) [] ++ [1])) ∧
    (c1CancelledState.running = false →
      (resume_from_io c1CancelledState (some 1) 1).queues = c1CancelledState.queues) :=
  resume_from_io_after_cancel c1CancelledState 1 1 (by decide) (by decide)

/-- C8: one expiry sweep removes from the registry exactly the entries more
than 30 seconds older than the current time, destroys the handle of each
removed entry (they are alive by hypothesis) without resuming anything, and
leaves every younger entry in place. -/
theorem cleanup_expired_sweep_spec (s : SchedState)
    (hnd : ∀ p ∈ s.io_operations, s.hdone p.1 = false) :
    (∀ p : Nat × IOOperation,
      p ∈ (cleanup_expired_io_operations s).io_operations ↔
        p ∈ s.io_operations ∧ ¬ (s.clock - p.2.start_time > 30)) ∧
    (cleanup_expired_io_operations s).destroyed =
      s.destroyed ++ (s.io_operations.filter (fun p => ioExpired s.clock p.2)).map Prod.fst ∧
    (cleanup_expired_io_operations s).queues = s.queues ∧
    (cleanup_expired_io_operations s).stats = s.stats := by
  refine ⟨?_, ?_, rfl, rfl⟩
  · intro p
    simp [cleanup_expired_io_operations, List.mem_filter, ioExpired]
  · have hall : ∀ k ∈ (s.io_operations.filter (fun p => ioExpired s.clock p.2)).map Prod.fst,
        (! s.hdone k) = true := by
      intro k hk
      simp only [List.mem_map] at hk
      obtain ⟨p, hp, hpk⟩ := hk
      have hpmem := List.mem_of_mem_filter hp
      rw [← hpk]
      simp [hnd p hpmem]
    simp [cleanup_expired_io_operations, List.filter_eq_self.mpr hall]

/-- witness for C8: at clock 100, the 50-second-old entry for handle 1 is
removed and destroyed, the 10-second-old entry for handle 2 stays, and the
statistics are untouched. -/
theorem cleanup_expired_sweep_spec_witness :
    ((1, (⟨5, 1, 1, 50⟩ : IOOperation)) ∉ (cleanup_expired_io_operations c8State).io_operations) ∧
    ((2, (⟨6, 1, 2, 90⟩ : IOOperation)) ∈ (cleanup_expired_io_operations c8State).io_operations) ∧
    (cleanup_expired_io_operations c8State).destroyed = [1] ∧
    (cleanup_expired_io_operations c8State).stats = c8State.stats := by
  have h := cleanup_expired_sweep_spec c8State (by decide)
  refine ⟨?_, ?_, ?_, h.2.2.2⟩
  · intro hmem
    exact ((h.1 _).mp hmem).2 (by decide)
  · exact (h.1 _).mpr ⟨by decide, by decide⟩
  · exact h.2.1.trans (by decide)

theorem schedule_stats_resumed (u : SchedState) (t : Nat) :
    (schedule u t).stats.total_resumed = u.stats.total_resumed :=
  (schedule_preserves u t).2.2.2.1

theorem schedule_stats_suspended (u : SchedState) (t : Nat) :
    (schedule u t).stats.total_io_suspended = u.stats.total_io_suspended :=
  (schedule_preserves u t).2.2.2.2.1

/-- `suspend_for_io` increments `total_io_suspended` exactly when the handle
is non-null and not done; it never touches `total_resumed` or the done map. -/
theorem suspend_for_io_counters (s : SchedState) (h : Option Nat) (fd : Int) (ev : Nat) :
    (suspend_for_io s h fd ev).stats.total_resumed = s.stats.total_resumed ∧
    (suspend_for_io s h fd ev).hdone = s.hdone ∧
    (suspend_for_io s h fd ev).stats.total_io_suspended =
      s.stats.total_io_suspended + (if viableTok s.hdone h then 1 else 0) := by
  cases h with
  | none => simp [suspend_for_io, viableTok]
  | some hh =>
    cases hd : s.hdone hh with
    | true => simp [suspend_for_io, viableTok, hd]
    | false =>
      cases hev : s.event_loop with
      | none => simp [suspend_for_io, viableTok, hd, hev]
      | some regs => simp [suspend_for_io, viableTok, hd, hev]

/-- `resume_from_io` never touches `total_io_suspended`. -/
theorem resume_from_io_suspended (s : SchedState) (h : Option Nat) (res : Int) :
    (resume_from_io s h res).stats.total_io_suspended = s.stats.total_io_suspended := by
  cases h with
  | none => simp [resume_from_io]
  | some hh =>
    cases hd : s.hdone hh with
    | true => simp [resume_from_io, hd]
    | false =>
      cases hl : lookupKey hh s.io_operations with
      | none => simp [resume_from_io, hd, hl, schedule_stats_suspended]
      | some op =>
        cases hev : s.event_loop with
        | none => simp [resume_from_io, hd, hl, hev, schedule_stats_suspended]
        | some regs => simp [resume_from_io, hd, hl, hev, schedule_stats_suspended]

/-- `resume_from_io` increments `total_resumed` exactly when the handle is
non-null and not done at entry. -/
theorem resume_from_io_resumed (s : SchedState) (h : Option Nat) (res : Int) :
    (resume_from_io s h res).stats.total_resumed =
      s.stats.total_resumed + (if viableTok s.hdone h then 1 else 0) := by
  cases h with
  | none => simp [resume_from_io, viableTok]
  | some hh =>
    cases hd : s.hdone hh with
    | true => simp [resume_from_io, viableTok, hd]
    | false =>
      cases hl : lookupKey hh s.io_operations with
      | none => simp [resume_from_io, viableTok, hd, hl, schedule_stats_resumed]
      | some op =>
        cases hev : s.event_loop with
        | none => simp [resume_from_io, viableTok, hd, hl, hev, schedule_stats_resumed]
        | some regs => simp [resume_from_io, viableTok, hd, hl, hev, schedule_stats_resumed]

/-- `resume_from_io` never revives a done coroutine: the inner `schedule`
call may destroy the handle (stopped scheduler), so the done map only
grows. -/
theorem resume_from_io_hdone_mono (s : SchedState) (h : Option Nat) (res : Int) :
    ∀ x, s.hdone x = true → (resume_from_io s h res).hdone x = true := by
  intro x hx
  cases h with
  | none => simpa [resume_from_io] using hx
  | some hh =>
    cases hd : s.hdone hh with
    | true => simpa [resume_from_io, hd] using hx
    | false =>
      cases hl : lookupKey hh s.io_operations with
      | none =>
        simp only [resume_from_io, hd, Bool.false_eq_true, if_false, hl]
        exact schedule_hdone_mono _ hh x hx
      | some op =>
        cases hev : s.event_loop with
        | none =>
          simp only [resume_from_io, hd, Bool.false_eq_true, if_false, hl, hev]
          exact schedule_hdone_mono _ hh x hx
        | some regs =>
          simp only [resume_from_io, hd, Bool.false_eq_true, if_false, hl, hev]
          exact schedule_hdone_mono _ hh x hx

theorem cancel_io_operation_preserves (s : SchedState) (h : Option Nat) :
    (cancel_io_operation s h).stats = s.stats ∧
    (cancel_io_operation s h).hdone = s.hdone := by
  cases h with
  | none => exact ⟨rfl, rfl⟩
  | some hh =>
    cases hl : lookupKey hh s.io_operations with
    | none => simp [cancel_io_operation, hl]
    | some op =>
      cases hev : s.event_loop with
      | none => simp [cancel_io_operation, hl, hev]
      | some regs => simp [cancel_io_operation, hl, hev]

theorem cleanup_counters (s : SchedState) :
    (cleanup_expired_io_operations s).stats = s.stats ∧
    ∀ x, s.hdone x = true → (cleanup_expired_io_operations s).hdone x = true := by
  refine ⟨rfl, ?_⟩
  intro x hx
  simp only [cleanup_expired_io_operations, destroyHandles]
  split <;> simp [hx]

theorem task_completes_counters (s : SchedState) (hh : Nat) :
    (task_completes s hh).stats = s.stats ∧
    ∀ x, s.hdone x = true → (task_completes s hh).hdone x = true := by
  refine ⟨rfl, ?_⟩
  intro x hx
  simp only [task_completes]
  split <;> simp [hx]

theorem length_filter_erase_le (f : Option Nat → Bool) (a : Option Nat)
    (l : List (Option Nat)) :
    ((l.erase a).filter f).length ≤ (l.filter f).length :=
  ((l.erase_sublist a).filter f).length_le

theorem length_filter_erase_add_one (f : Option Nat → Bool) (a : Option Nat)
    (l : List (Option Nat)) (hmem : a ∈ l) (hfa : f a = true) :
    ((l.erase a).filter f).length + 1 ≤ (l.filter f).length := by
  induction l with
  | nil => simp at hmem
  | cons x xs ih =>
    by_cases hx : x = a
    · subst hx
      rw [List.erase_cons_head]
      simp [List.filter_cons, hfa]
    · rw [List.erase_cons_tail (by simp [hx])]
      have hmem2 : a ∈ xs := by
        rcases List.mem_cons.mp hmem with hc | hc
        · exact absurd hc.symm hx
        · exact hc
      cases hfx : f x with
      | false => simpa [List.filter_cons, hfx] using ih hmem2
      | true =>
        simp only [List.filter_cons, hfx, if_pos, List.length_cons]
        have := ih hmem2
        omega

theorem length_filter_le_of_imp {α : Type} (f g : α → Bool) (l : List α)
    (himp : ∀ x ∈ l, g x = true → f x = true) :
    (l.filter g).length ≤ (l.filter f).length := by
  induction l with
  | nil => simp
  | cons x xs ih =>
    have ih2 := ih (fun y hy => himp y (List.mem_cons_of_mem _ hy))
    cases hg : g x with
    | false =>
      cases hfx : f x <;> simp [List.filter_cons, hg, hfx] <;> omega
    | true =>
      have hfx : f x = true := himp x (List.mem_cons_self _ _) hg
      simp only [List.filter_cons, hg, hfx, if_pos, List.length_cons]
      omega

theorem viableTok_mono (hd hd2 : Nat → Bool) (hmono : ∀ x, hd x = true → hd2 x = true)
    (tok : Option Nat) (hv : viableTok hd2 tok = true) : viableTok hd tok = true := by
  cases tok with
  | none => simp [viableTok] at hv
  | some x =>
    simp only [viableTok, Bool.not_eq_true'] at hv ⊢
    cases hhd : hd x with
    | false => rfl
    | true => rw [hmono x hhd] at hv; exact hv

/-- Every I/O-path step preserves the strengthened counter invariant. -/
theorem IOPathStep_preserves_statsInv {a b : IOSystem} (hstep : IOPathStep a b)
    (hinv : statsInv a) : statsInv b := by
  cases hstep with
  | awaitSuspend h fd ev =>
    obtain ⟨h1, h2, h3⟩ := suspend_for_io_counters a.sched h fd ev
    unfold statsInv pendingViable at hinv ⊢
    simp only at hinv ⊢
    rw [h1, h2, h3, List.filter_cons]
    cases hv : viableTok a.sched.hdone h <;> simp [hv] <;> omega
  | backgroundResume h res hmem =>
    have h1 := resume_from_io_suspended a.sched h res
    have h2 := resume_from_io_hdone_mono a.sched h res
    have h3 := resume_from_io_resumed a.sched h res
    unfold statsInv pendingViable at hinv ⊢
    simp only at hinv ⊢
    rw [h1, h3]
    have hmono := length_filter_le_of_imp (viableTok a.sched.hdone)
      (viableTok (resume_from_io a.sched h res).hdone) (a.pendingResumes.erase h)
      (fun tok _ hv => viableTok_mono _ _ h2 tok hv)
    cases hv : viableTok a.sched.hdone h with
    | true =>
      have hle := length_filter_erase_add_one (viableTok a.sched.hdone) h
        a.pendingResumes hmem hv
      simp
      omega
    | false =>
      have hle := length_filter_erase_le (viableTok a.sched.hdone) h a.pendingResumes
      simp
      omega
  | cancelStep h =>
    obtain ⟨h1, h2⟩ := cancel_io_operation_preserves a.sched h
    unfold statsInv pendingViable at hinv ⊢
    simp only at hinv ⊢
    rw [h1, h2]
    exact hinv
  | sweepStep =>
    obtain ⟨h1, h2⟩ := cleanup_counters a.sched
    unfold statsInv pendingViable at hinv ⊢
    simp only at hinv ⊢
    rw [h1]
    have hle := length_filter_le_of_imp (viableTok a.sched.hdone)
      (viableTok (cleanup_expired_io_operations a.sched).hdone) a.pendingResumes
      (fun tok _ hv => viableTok_mono _ _ h2 tok hv)
    omega
  | completeStep hh =>
    obtain ⟨h1, h2⟩ := task_completes_counters a.sched hh
    unfold statsInv pendingViable at hinv ⊢
    simp only at hinv ⊢
    rw [h1]
    have hle := length_filter_le_of_imp (viableTok a.sched.hdone)
      (viableTok (task_completes a.sched hh).hdone) a.pendingResumes
      (fun tok _ hv => viableTok_mono _ _ h2 tok hv)
    omega
  | scheduleStep t =>
    unfold statsInv pendingViable at hinv ⊢
    simp only at hinv ⊢
    rw [schedule_stats_resumed, schedule_stats_suspended]
    have hle := length_filter_le_of_imp (viableTok a.sched.hdone)
      (viableTok (schedule a.sched t).hdone) a.pendingResumes
      (fun tok _ hv => viableTok_mono _ _ (schedule_hdone_mono a.sched t) tok hv)
    omega
  | tickStep d =>
    exact hinv

/-- C2: over every run of the runtime's own I/O paths (task suspensions
with their one background resume each, cancellations, expiry sweeps, task
completions, external schedules and the passage of time) from a state with
no pending background resume and a zero resume counter, the statistics
satisfy `total_resumed ≤ total_io_suspended`. -/
theorem total_resumed_le_total_io_suspended (sys0 sys : IOSystem)
    (hpend : sys0.pendingResumes = [])
    (hres : sys0.sched.stats.total_resumed = 0)
    (hreach : ioReachable sys0 sys) :
    sys.sched.stats.total_resumed ≤ sys.sched.stats.total_io_suspended := by
  have hinv0 : statsInv sys0 := by
    unfold statsInv pendingViable
    rw [hpend, hres]
    simp
  have hinv : statsInv sys := by
    induction hreach with
    | refl => exact hinv0
    | tail _hsteps hstep ih => exact IOPathStep_preserves_statsInv hstep ih
  unfold statsInv at hinv
  omega

/-- witness for C2: a suspend of handle 1 followed by its background resume,
starting from the fresh example scheduler. -/
theorem total_resumed_le_total_io_suspended_witness :
    (IOSystem.mk (resume_from_io (suspend_for_io exampleState (some 1) 5 1) (some 1) 1)
        (([some 1] : List (Option Nat)).erase (some 1))).sched.stats.total_resumed ≤
    (IOSystem.mk (resume_from_io (suspend_for_io exampleState (some 1) 5 1) (some 1) 1)
        (([some 1] : List (Option Nat)).erase (some 1))).sched.stats.total_io_suspended :=
  total_resumed_le_total_io_suspended ⟨exampleState, []⟩ _ rfl rfl
    (Relation.ReflTransGen.tail
      (Relation.ReflTransGen.tail Relation.ReflTransGen.refl
        (IOPathStep.awaitSuspend ⟨exampleState, []⟩ (some 1) 5 1))
      (IOPathStep.backgroundResume ⟨suspend_for_io exampleState (some 1) 5 1, [some 1]⟩
        (some 1) 1 (by simp)))

end SwiftNet
